import Mathlib

/-!
FSR4 temporal upscaler history: the state wrapper and the history record.

A shallow embedding of `FFXFSR4TemporalUpscalerHistory.h`:

* `FFXFSR4State`, the reference-counted wrapper of one FSR4 context with its
  queue of outstanding GPU fences (`PushActivity`, `PollActivity`);
* `FFXFSR4TemporalUpscalerHistory`, the per-view history object that retains
  one `FFXFSR4State`.

Pointers are natural numbers, a `TRefCountPtr` is an `Option` of an address
(`none` is the null reference), the `TQueue` of fences is the list of its
items from head to tail, and `check(...)` failing is the result `none`.
-/

namespace FSR4

/-! ## Fences, threads and the fence queue -/

/-- An `FGPUFenceRHIRef` stored in the queue, identified by a number. -/
abbrev FGPUFenceRHIRef := Nat

/-- What the fences answer at one moment: `IsValid()` of the reference and
`Poll()` of the fence it refers to. -/
structure FenceStatus where
  IsValid : FGPUFenceRHIRef → Bool
  Poll : FGPUFenceRHIRef → Bool

/-- The three thread predicates the `check`s of the header read, as seen by
the calling thread. -/
structure ThreadContext where
  IsRHIThreadRunning : Bool
  IsInRHIThread : Bool
  IsInRenderingThread : Bool
  deriving DecidableEq, Repr

/-- A method called on a fence by `PollActivity`. -/
inductive FenceCall where
  | IsValid (Fence : FGPUFenceRHIRef)
  | Poll (Fence : FGPUFenceRHIRef)
  deriving DecidableEq, Repr

/-- `TQueue::Enqueue`: the item is added at the tail. -/
def TQueue.Enqueue (Queue : List FGPUFenceRHIRef) (Item : FGPUFenceRHIRef) :
    List FGPUFenceRHIRef :=
  Queue ++ [Item]

/-! ## FFXFSR4State -/

/-- An `ffxContext` handle as produced by the backend. -/
abbrev ffxContext := Nat

/-- The base class `FRHIResource` of `FFXFSR4State`. It belongs to the engine
and not to this plugin; it is modelled as the header describes it above the
struct ("deletion is handled by the RHI so that they aren't removed out from
under the GPU"): a reference count, and the mark under which a resource whose
count fell to zero waits for the RHI to delete it. -/
structure FRHIResource where
  NumRefs : Nat
  MarkedForDelete : Bool
  deriving DecidableEq, Repr

/-- The fields of `struct FFXFSR4State : public FRHIResource`. A field the
constructor leaves uninitialised is `none` until it is written. -/
structure FFXFSR4State extends FRHIResource where
  Backend : Nat
  Params : Option Nat
  Fsr4 : Option ffxContext
  LastUsedFrame : Nat
  ViewID : Option Nat
  RequestedFSRProvider : Option Nat
  ActiveFences : List FGPUFenceRHIRef
  deriving DecidableEq, Repr

/-- The value of the C++ expression `~0u`: all 32 bits of an `unsigned int`
set. -/
def allOnes32 : Nat := (2 ^ 32 - 1 - 0) % 2 ^ 32

/-- The constructor `FFXFSR4State(IFFXSharedBackend* InBackend)`: the base is
built with no reference, `Backend` and `LastUsedFrame(~0u)` are initialised
(the 32-bit value converted to `uint64`), the queue is empty and the other
fields are left uninitialised. -/
def FFXFSR4State.construct (InBackend : Nat) : FFXFSR4State :=
  { NumRefs := 0
    MarkedForDelete := false
    Backend := InBackend
    Params := none
    Fsr4 := none
    LastUsedFrame := allOnes32 % 2 ^ 64
    ViewID := none
    RequestedFSRProvider := none
    ActiveFences := [] }

/-- The `check` of `PushActivity`:
`(IsRHIThreadRunning() && IsInRHIThread()) || IsInRenderingThread()`. -/
def PushActivityCheck (Thread : ThreadContext) : Bool :=
  (Thread.IsRHIThreadRunning && Thread.IsInRHIThread) || Thread.IsInRenderingThread

/-- The `check` of `PollActivity`: `IsInRenderingThread()`. -/
def PollActivityCheck (Thread : ThreadContext) : Bool :=
  Thread.IsInRenderingThread

/-- `FFXFSR4State::PushActivity(Fence)`: after the `check`, the fence is
enqueued. -/
def FFXFSR4State.PushActivity (Thread : ThreadContext) (Fence : FGPUFenceRHIRef)
    (State : FFXFSR4State) : Option FFXFSR4State :=
  if PushActivityCheck Thread then
    some { State with ActiveFences := TQueue.Enqueue State.ActiveFences Fence }
  else
    none

/-- What the `while` loop of `PollActivity` leaves: the queue, and the calls
it made on fences, in order. -/
structure PollLoopResult where
  Queue : List FGPUFenceRHIRef
  Calls : List FenceCall
  deriving DecidableEq, Repr

/-- The loop `while (!ActiveFences.IsEmpty())` of `PollActivity`. On an empty
queue the loop ends. Otherwise `Peek()` gives the head (a non-null pointer),
and the condition `ActiveFence && ActiveFence->IsValid() && (*ActiveFence)->Poll()`
is evaluated left to right with short-circuit: when it holds the head is
popped and the loop goes on with the rest, otherwise the loop breaks. -/
def pollLoop (Status : FenceStatus) : List FGPUFenceRHIRef → PollLoopResult
  | [] => { Queue := [], Calls := [] }
  | ActiveFence :: Rest =>
    if Status.IsValid ActiveFence then
      if Status.Poll ActiveFence then
        let Next := pollLoop Status Rest
        { Queue := Next.Queue
          Calls := FenceCall.IsValid ActiveFence :: FenceCall.Poll ActiveFence :: Next.Calls }
      else
        { Queue := ActiveFence :: Rest
          Calls := [FenceCall.IsValid ActiveFence, FenceCall.Poll ActiveFence] }
    else
      { Queue := ActiveFence :: Rest, Calls := [FenceCall.IsValid ActiveFence] }

/-- What a call of `PollActivity` that passed its `check` yields: the value
returned, the state afterwards and the calls made on fences. -/
structure PollActivityResult where
  Return : Bool
  State : FFXFSR4State
  Calls : List FenceCall
  deriving DecidableEq, Repr

/-- `FFXFSR4State::PollActivity()`: after the `check`, the loop drains the
queue and the function returns `ActiveFences.IsEmpty()`. -/
def FFXFSR4State.PollActivity (Thread : ThreadContext) (Status : FenceStatus)
    (State : FFXFSR4State) : Option PollActivityResult :=
  if PollActivityCheck Thread then
    let Drained := pollLoop Status State.ActiveFences
    some { Return := Drained.Queue.isEmpty
           State := { State with ActiveFences := Drained.Queue }
           Calls := Drained.Calls }
  else
    none

/-- A fence that passes the condition of the loop: valid and complete. -/
def FenceStatus.Done (Status : FenceStatus) (Fence : FGPUFenceRHIRef) : Bool :=
  Status.IsValid Fence && Status.Poll Fence

/-- The rendering thread while an RHI thread is running. -/
def renderThread : ThreadContext :=
  { IsRHIThreadRunning := true, IsInRHIThread := false, IsInRenderingThread := true }

/-- The RHI thread. -/
def rhiThread : ThreadContext :=
  { IsRHIThreadRunning := true, IsInRHIThread := true, IsInRenderingThread := false }

/-- A state holding the queue `Queue` and one reference. -/
def stateWithQueue (Queue : List FGPUFenceRHIRef) : FFXFSR4State :=
  { FFXFSR4State.construct 0 with NumRefs := 1, ActiveFences := Queue }

/-- The polls of a consumer one after the other, each under the statuses of
its moment: the values returned, in order, and the state at the end. -/
def pollSequence (Thread : ThreadContext) :
    List FenceStatus → FFXFSR4State → Option (List Bool × FFXFSR4State)
  | [], State => some ([], State)
  | Status :: Later, State =>
    match State.PollActivity Thread Status with
    | none => none
    | some Result =>
      match pollSequence Thread Later Result.State with
      | none => none
      | some (Returns, Final) => some (Result.Return :: Returns, Final)

/-- The pushes of a producer one after the other. -/
def pushSequence (Thread : ThreadContext) :
    List FGPUFenceRHIRef → FFXFSR4State → Option FFXFSR4State
  | [], State => some State
  | Fence :: Later, State =>
    match State.PushActivity Thread Fence with
    | none => none
    | some Next => pushSequence Thread Later Next

/-- Statuses under which every fence is valid and the fences numbered below
`Completed` have completed. -/
def completedBelow (Completed : Nat) : FenceStatus :=
  { IsValid := fun _ => true, Poll := fun Fence => decide (Fence < Completed) }

/-! ## Reference counting and deletion of the state -/

/-- `FFXFSR4State::AddRef()`, which is `FRHIResource::AddRef()`: the count is
incremented and its new value returned. -/
def FFXFSR4State.AddRef (State : FFXFSR4State) : Nat × FFXFSR4State :=
  (State.NumRefs + 1, { State with NumRefs := State.NumRefs + 1 })

/-- `FFXFSR4State::Release()`, which is `FRHIResource::Release()`: the count is
decremented and its new value returned; a resource whose count reached zero
is marked for deletion and left to the RHI, which deletes it later (see
`RHIDeleteResource`); the destructor does not run inside `Release`. Releasing
at a count of zero is outside the contract of the base class (`none`). -/
def FFXFSR4State.Release (State : FFXFSR4State) : Option (Nat × FFXFSR4State) :=
  if State.NumRefs = 0 then
    none
  else
    let NewValue := State.NumRefs - 1
    some (NewValue,
      { State with
        NumRefs := NewValue
        MarkedForDelete := State.MarkedForDelete || (NewValue == 0) })

/-- `FFXFSR4State::GetRefCount()`, which is `FRHIResource::GetRefCount()`. -/
def FFXFSR4State.GetRefCount (State : FFXFSR4State) : Nat :=
  State.NumRefs

/-- A call received by the `IFFXSharedBackend`. `ffxDestroyContext` is given
the address of the `Fsr4` field: it receives what the field holds, `none`
for a handle that was never populated. -/
inductive BackendCall where
  | ffxCreateContext (Context : ffxContext)
  | ffxDestroyContext (Context : Option ffxContext)
  deriving DecidableEq, Repr

/-- The destructor `~FFXFSR4State()`: `Backend->ffxDestroyContext(&Fsr4)`. -/
def FFXFSR4State.destruct (State : FFXFSR4State) : List BackendCall :=
  [BackendCall.ffxDestroyContext State.Fsr4]

/-- The RHI handling one resource it finds marked for deletion: a resource
that is still unreferenced is deleted (its destructor runs and the object is
gone), one that was referenced again in the meantime loses the mark and
lives on. A resource that is not marked is not touched. -/
def RHIDeleteResource (State : FFXFSR4State) : Option FFXFSR4State × List BackendCall :=
  if State.MarkedForDelete then
    if State.NumRefs = 0 then
      (none, State.destruct)
    else
      (some { State with MarkedForDelete := false }, [])
  else
    (some State, [])

/-- An operation on one `FFXFSR4State` during its lifetime. `CreateContext`
is the owner populating the public field `Fsr4` through the backend, which
hands out the handle `Context`. -/
inductive StateOp where
  | AddRef
  | Release
  | CreateContext (Context : ffxContext)
  | PushActivity (Thread : ThreadContext) (Fence : FGPUFenceRHIRef)
  | PollActivity (Thread : ThreadContext) (Status : FenceStatus)

/-- One `FFXFSR4State` together with the calls its backend has received. -/
structure Lifetime where
  State : FFXFSR4State
  BackendCalls : List BackendCall
  deriving DecidableEq, Repr

/-- A state fresh from its constructor, the backend not yet called. -/
def Lifetime.construct (InBackend : Nat) : Lifetime :=
  { State := FFXFSR4State.construct InBackend, BackendCalls := [] }

/-- One operation on the state; `none` when the operation fails a `check`. -/
def Lifetime.step (Op : StateOp) (L : Lifetime) : Option Lifetime :=
  match Op with
  | StateOp.AddRef => some { L with State := L.State.AddRef.2 }
  | StateOp.Release => L.State.Release.map fun R => { L with State := R.2 }
  | StateOp.CreateContext Context =>
    some { State := { L.State with Fsr4 := some Context }
           BackendCalls := L.BackendCalls ++ [BackendCall.ffxCreateContext Context] }
  | StateOp.PushActivity Thread Fence =>
    (L.State.PushActivity Thread Fence).map fun S => { L with State := S }
  | StateOp.PollActivity Thread Status =>
    (L.State.PollActivity Thread Status).map fun R => { L with State := R.State }

/-- A sequence of operations, in order. -/
def Lifetime.run : List StateOp → Lifetime → Option Lifetime
  | [], L => some L
  | Op :: Ops, L =>
    match L.step Op with
    | none => none
    | some Next => Lifetime.run Ops Next

/-- The RHI's deletion pass over the state: the destructor's backend calls
are added to the record; the state is `none` once deleted. -/
def Lifetime.RHIDelete (L : Lifetime) : Option FFXFSR4State × List BackendCall :=
  ((RHIDeleteResource L.State).1, L.BackendCalls ++ (RHIDeleteResource L.State).2)

/-- The handles populated by backend creations in a sequence, in order. -/
def createdContexts : List StateOp → List ffxContext
  | [] => []
  | StateOp.CreateContext Context :: Ops => Context :: createdContexts Ops
  | _ :: Ops => createdContexts Ops

/-- The number of `ffxDestroyContext` calls in a record of backend calls. -/
def countDestroy : List BackendCall → Nat
  | [] => 0
  | BackendCall.ffxDestroyContext _ :: Calls => countDestroy Calls + 1
  | _ :: Calls => countDestroy Calls

/-- The number of backend creations in a record of backend calls that
produced the handle `Context`. -/
def countCreate (Context : Option ffxContext) : List BackendCall → Nat
  | [] => 0
  | BackendCall.ffxCreateContext Created :: Calls =>
    (if Context = some Created then 1 else 0) + countCreate Context Calls
  | _ :: Calls => countCreate Context Calls

/-! ## The history object and the states it shares -/

/-- An `FSR4StateRef`, that is `TRefCountPtr<FFXFSR4State>`: the address of a
state, or the null reference. -/
abbrev FSR4StateRef := Option Nat

/-- The `FFXFSR4State` objects alive, by address, and the calls their backend
has received. -/
structure World where
  States : Nat → Option FFXFSR4State
  BackendCalls : List BackendCall

/-- The world in which the state at `Address` has become `State`. -/
def World.store (Address : Nat) (State : FFXFSR4State) (W : World) : World :=
  { W with States := Function.update W.States Address (some State) }

/-- A `TRefCountPtr` taking a reference: `AddRef()` on the state referred to,
nothing for the null reference. A reference to an address where no state
lives cannot be used (`none`). -/
def World.AddRef (Ref : FSR4StateRef) (W : World) : Option World :=
  match Ref with
  | none => some W
  | some Address =>
    match W.States Address with
    | none => none
    | some State => some (W.store Address State.AddRef.2)

/-- A `TRefCountPtr` dropping its reference: `Release()` on the state referred
to, nothing for the null reference. -/
def World.Release (Ref : FSR4StateRef) (W : World) : Option World :=
  match Ref with
  | none => some W
  | some Address =>
    match W.States Address with
    | none => none
    | some State =>
      match State.Release with
      | none => none
      | some Released => some (W.store Address Released.2)

/-- `GetRefCount()` of the state at an address, if one lives there. -/
def World.GetRefCount (Address : Nat) (W : World) : Option Nat :=
  (W.States Address).map FFXFSR4State.GetRefCount

/-- The RHI's deletion pass reaching the state at an address. -/
def World.RHIDelete (Address : Nat) (W : World) : World :=
  match W.States Address with
  | none => W
  | some State =>
    { States := Function.update W.States Address (RHIDeleteResource State).1
      BackendCalls := W.BackendCalls ++ (RHIDeleteResource State).2 }

/-- A state with `Count` references and the context handle `Context`. -/
def stateWithRefs (Count : Nat) (Context : ffxContext) : FFXFSR4State :=
  { FFXFSR4State.construct 0 with NumRefs := Count, Fsr4 := some Context }

/-- The data members of `class FFXFSR4TemporalUpscalerHistory` and the
reference count of its base `FRefCountBase`. -/
structure FFXFSR4TemporalUpscalerHistory where
  NumRefs : Nat
  FsrHistoryId : Option Nat
  Fsr4 : FSR4StateRef
  Upscaler : Nat
  MotionVectors : Option Nat
  deriving DecidableEq, Repr

/-- Modelled from the spec: the constructor of the history object is declared
in the header and defined elsewhere; it "takes shared ownership of both" the
state and the motion vectors. The base `FRefCountBase` starts with no
reference. -/
def FFXFSR4TemporalUpscalerHistory.construct (NewState : FSR4StateRef) (Upscaler : Nat)
    (InMotionVectors : Option Nat) (W : World) :
    Option (FFXFSR4TemporalUpscalerHistory × World) :=
  (W.AddRef NewState).map fun Shared =>
    ({ NumRefs := 0
       FsrHistoryId := none
       Fsr4 := NewState
       Upscaler := Upscaler
       MotionVectors := InMotionVectors }, Shared)

/-- Modelled from the spec: the destructor of the history object is declared
in the header and defined elsewhere; the object gives up its shared ownership
of the state (its member `Fsr4` drops the reference it holds). -/
def FFXFSR4TemporalUpscalerHistory.destruct (H : FFXFSR4TemporalUpscalerHistory)
    (W : World) : Option World :=
  W.Release H.Fsr4

/-- `FFXFSR4TemporalUpscalerHistory::AddRef()`, which is
`FRefCountBase::AddRef()`: the object's own count is incremented. -/
def FFXFSR4TemporalUpscalerHistory.AddRef (H : FFXFSR4TemporalUpscalerHistory) :
    Nat × FFXFSR4TemporalUpscalerHistory :=
  (H.NumRefs + 1, { H with NumRefs := H.NumRefs + 1 })

/-- `FFXFSR4TemporalUpscalerHistory::Release()`, which is
`FRefCountBase::Release()`: the object's own count is decremented, and at zero
the object is deleted on the spot (`delete this`), which runs its destructor.
The object afterwards is `none` once deleted. -/
def FFXFSR4TemporalUpscalerHistory.Release (H : FFXFSR4TemporalUpscalerHistory)
    (W : World) : Option (Nat × Option FFXFSR4TemporalUpscalerHistory × World) :=
  if H.NumRefs = 0 then
    none
  else
    let Refs := H.NumRefs - 1
    if Refs = 0 then
      (H.destruct W).map fun After => (Refs, none, After)
    else
      some (Refs, some { H with NumRefs := Refs }, W)

/-- `FFXFSR4TemporalUpscalerHistory::GetRefCount()`, which is
`FRefCountBase::GetRefCount()`. -/
def FFXFSR4TemporalUpscalerHistory.GetRefCount (H : FFXFSR4TemporalUpscalerHistory) : Nat :=
  H.NumRefs

/-- The static storage behind `GetFsrHistoryIdFromDebugName`: the identifier,
once it has been computed. -/
structure Statics where
  DebugNameId : Option Nat
  deriving DecidableEq, Repr

/-- Modelled from the spec: `GetFsrHistoryIdFromDebugName` is declared in the
header (`static uint64`, no argument) and defined elsewhere; it "computes
(once) and caches a numeric identifier deterministically derived from" the
constant debug-name string. The derivation `Hash` and the string
`FfxFsr4DebugName` are not in the header and are parameters. -/
def GetFsrHistoryIdFromDebugName (Hash : String → Nat) (FfxFsr4DebugName : String)
    (S : Statics) : Nat × Statics :=
  match S.DebugNameId with
  | some Id => (Id, S)
  | none => (Hash FfxFsr4DebugName % 2 ^ 64,
      { DebugNameId := some (Hash FfxFsr4DebugName % 2 ^ 64) })

/-- The values returned by `Count` calls of `GetFsrHistoryIdFromDebugName` one
after the other, and the static storage at the end. -/
def callGetFsrHistoryId (Hash : String → Nat) (FfxFsr4DebugName : String) :
    Nat → Statics → List Nat × Statics
  | 0, S => ([], S)
  | Count + 1, S =>
    ((GetFsrHistoryIdFromDebugName Hash FfxFsr4DebugName S).1 ::
      (callGetFsrHistoryId Hash FfxFsr4DebugName Count
        (GetFsrHistoryIdFromDebugName Hash FfxFsr4DebugName S).2).1,
     (callGetFsrHistoryId Hash FfxFsr4DebugName Count
        (GetFsrHistoryIdFromDebugName Hash FfxFsr4DebugName S).2).2)

/-! ## Counting what a poll did -/

/-- The number of `IsValid()` calls in a record of fence calls. The body of the
loop of `PollActivity` makes this call exactly once each time it runs, so this
is the number of times the body ran. -/
def countIsValidCalls : List FenceCall → Nat
  | [] => 0
  | FenceCall.IsValid _ :: Calls => countIsValidCalls Calls + 1
  | FenceCall.Poll _ :: Calls => countIsValidCalls Calls

/-- The number of `Poll()` calls in a record of fence calls. -/
def countPollCalls : List FenceCall → Nat
  | [] => 0
  | FenceCall.IsValid _ :: Calls => countPollCalls Calls
  | FenceCall.Poll _ :: Calls => countPollCalls Calls + 1

/-- The fences on which `Poll()` was called, in the order of the calls. -/
def polledFences : List FenceCall → List FGPUFenceRHIRef
  | [] => []
  | FenceCall.IsValid _ :: Calls => polledFences Calls
  | FenceCall.Poll Fence :: Calls => Fence :: polledFences Calls

/-- The calls of a body run that pops the head `Fence`: `IsValid()`, then
`Poll()`. -/
def poppingCalls (Fence : FGPUFenceRHIRef) : List FenceCall :=
  [FenceCall.IsValid Fence, FenceCall.Poll Fence]

/-- The calls of the body run at which the loop breaks, the queue then being
`Queue`: none when the queue is exhausted (the body does not run), `IsValid()`
alone on an invalid head, `IsValid()` then `Poll()` on a valid head. -/
def breakingCalls (Status : FenceStatus) : List FGPUFenceRHIRef → List FenceCall
  | [] => []
  | Head :: _ =>
    if Status.IsValid Head then [FenceCall.IsValid Head, FenceCall.Poll Head]
    else [FenceCall.IsValid Head]

/-- The fields of a state other than the fence queue agree: the base with the
reference count, the backend pointer, the parameters, the context handle, the
last used frame, the view and the requested provider. -/
def FFXFSR4State.SameBesidesQueue (Before After : FFXFSR4State) : Prop :=
  After.NumRefs = Before.NumRefs ∧
  After.MarkedForDelete = Before.MarkedForDelete ∧
  After.Backend = Before.Backend ∧
  After.Params = Before.Params ∧
  After.Fsr4 = Before.Fsr4 ∧
  After.LastUsedFrame = Before.LastUsedFrame ∧
  After.ViewID = Before.ViewID ∧
  After.RequestedFSRProvider = Before.RequestedFSRProvider

/-- The lifetime record of a state whose backend has not been called. -/
def lifetimeOf (State : FFXFSR4State) : Lifetime :=
  { State := State, BackendCalls := [] }

/-! ## The drain loop -/

theorem pollLoop_queue (Status : FenceStatus) (Queue : List FGPUFenceRHIRef) :
    (pollLoop Status Queue).Queue = Queue.dropWhile Status.Done := by
  induction Queue with
  | nil => rfl
  | cons f rest ih =>
    by_cases hv : Status.IsValid f <;> by_cases hp : Status.Poll f <;>
      simp [pollLoop, FenceStatus.Done, List.dropWhile, hv, hp, ih]

theorem PollActivity_eq (Thread : ThreadContext) (Status : FenceStatus)
    (State : FFXFSR4State) (hT : Thread.IsInRenderingThread = true) :
    State.PollActivity Thread Status =
      some { Return := (State.ActiveFences.dropWhile Status.Done).isEmpty
             State := { State with
               ActiveFences := State.ActiveFences.dropWhile Status.Done }
             Calls := (pollLoop Status State.ActiveFences).Calls } := by
  simp [FFXFSR4State.PollActivity, PollActivityCheck, hT, pollLoop_queue]

theorem dropWhile_head_not (p : FGPUFenceRHIRef → Bool) (Queue : List FGPUFenceRHIRef)
    (f : FGPUFenceRHIRef) (Rest : List FGPUFenceRHIRef)
    (h : Queue.dropWhile p = f :: Rest) : p f = false := by
  induction Queue with
  | nil => simp at h
  | cons g tl ih =>
    by_cases hg : p g = true
    · rw [List.dropWhile_cons_of_pos hg] at h
      exact ih h
    · rw [List.dropWhile_cons_of_neg hg] at h
      cases h
      simpa using hg

theorem length_le_takeWhile (p : FGPUFenceRHIRef → Bool) (Front Back : List FGPUFenceRHIRef)
    (h : ∀ f ∈ Front, p f = true) :
    Front.length ≤ ((Front ++ Back).takeWhile p).length := by
  induction Front with
  | nil => simp
  | cons g tl ih =>
    have hg : p g = true := h g (List.mem_cons_self g tl)
    have htl : ∀ f ∈ tl, p f = true := fun f hf => h f (List.mem_cons_of_mem g hf)
    simp only [List.cons_append, List.takeWhile_cons, hg, if_true, List.length_cons]
    exact Nat.succ_le_succ (ih htl)

/-- C1: a `PollActivity` on the rendering thread removes from the queue
exactly the longest front segment whose fences are all valid and complete:
the queue before is `Removed` followed by the queue after, in the same order,
every fence of `Removed` is valid and complete, the fence left at the head (if
any) is invalid or incomplete, and no front segment of valid and complete
fences is longer than `Removed`. -/
theorem PollActivity_removes_longest_done_front (Thread : ThreadContext)
    (Status : FenceStatus) (State : FFXFSR4State)
    (hT : Thread.IsInRenderingThread = true) :
    ∃ Result Removed, State.PollActivity Thread Status = some Result ∧
      State.ActiveFences = Removed ++ Result.State.ActiveFences ∧
      (∀ f ∈ Removed, Status.IsValid f = true ∧ Status.Poll f = true) ∧
      (∀ f Rest, Result.State.ActiveFences = f :: Rest →
        ¬ (Status.IsValid f = true ∧ Status.Poll f = true)) ∧
      (∀ Front Back, State.ActiveFences = Front ++ Back →
        (∀ f ∈ Front, Status.IsValid f = true ∧ Status.Poll f = true) →
        Front.length ≤ Removed.length) := by
  refine ⟨_, State.ActiveFences.takeWhile Status.Done, PollActivity_eq Thread Status State hT,
    ?_, ?_, ?_, ?_⟩
  · exact (List.takeWhile_append_dropWhile Status.Done State.ActiveFences).symm
  · intro f hf
    have := List.mem_takeWhile_imp hf
    simpa [FenceStatus.Done] using this
  · intro f Rest hq
    have := dropWhile_head_not Status.Done State.ActiveFences f Rest hq
    simpa [FenceStatus.Done] using this
  · intro Front Back hq hall
    rw [hq]
    apply length_le_takeWhile
    intro f hf
    simpa [FenceStatus.Done] using hall f hf

theorem PollActivity_removes_longest_done_front_witness :
    renderThread.IsInRenderingThread = true ∧
    ∃ Result Removed,
      (stateWithQueue [0, 1, 2, 1]).PollActivity renderThread
        ⟨fun _ => true, fun f => decide (f < 2)⟩ = some Result ∧
      (stateWithQueue [0, 1, 2, 1]).ActiveFences = Removed ++ Result.State.ActiveFences ∧
      (∀ f ∈ Removed, (fun _ => true) f = true ∧ (fun f => decide (f < 2)) f = true) ∧
      (∀ f Rest, Result.State.ActiveFences = f :: Rest →
        ¬ ((fun _ => true) f = true ∧ (fun f => decide (f < 2)) f = true)) ∧
      (∀ Front Back, (stateWithQueue [0, 1, 2, 1]).ActiveFences = Front ++ Back →
        (∀ f ∈ Front, (fun _ => true) f = true ∧ (fun f => decide (f < 2)) f = true) →
        Front.length ≤ Removed.length) :=
  ⟨rfl, PollActivity_removes_longest_done_front renderThread
    ⟨fun _ => true, fun f => decide (f < 2)⟩ (stateWithQueue [0, 1, 2, 1]) rfl⟩

/-- C2: a `PollActivity` on the rendering thread returns true if and only if
the queue is empty afterwards, and if and only if every fence that was in the
queue at the call is valid and reports completion; on an empty queue it
returns true. -/
theorem PollActivity_returns_true_iff (Thread : ThreadContext)
    (Status : FenceStatus) (State : FFXFSR4State)
    (hT : Thread.IsInRenderingThread = true) :
    ∃ Result, State.PollActivity Thread Status = some Result ∧
      (Result.Return = true ↔ Result.State.ActiveFences = []) ∧
      (Result.Return = true ↔
        ∀ f ∈ State.ActiveFences, Status.IsValid f = true ∧ Status.Poll f = true) ∧
      (State.ActiveFences = [] → Result.Return = true) := by
  refine ⟨_, PollActivity_eq Thread Status State hT, ?_, ?_, ?_⟩
  · simp [List.isEmpty_iff]
  · simp [List.isEmpty_iff, FenceStatus.Done]
  · intro h
    simp [h]

theorem PollActivity_returns_true_iff_witness :
    renderThread.IsInRenderingThread = true ∧
    ∃ Result, (stateWithQueue [0, 1]).PollActivity renderThread
        ⟨fun _ => true, fun _ => true⟩ = some Result ∧
      (Result.Return = true ↔ Result.State.ActiveFences = []) ∧
      (Result.Return = true ↔
        ∀ f ∈ (stateWithQueue [0, 1]).ActiveFences,
          (fun _ => true) f = true ∧ (fun _ => true) f = true) ∧
      ((stateWithQueue [0, 1]).ActiveFences = [] → Result.Return = true) :=
  ⟨rfl, PollActivity_returns_true_iff renderThread ⟨fun _ => true, fun _ => true⟩
    (stateWithQueue [0, 1]) rfl⟩

theorem PollActivity_invalid_front (Thread : ThreadContext) (Status : FenceStatus)
    (State : FFXFSR4State) (Front : FGPUFenceRHIRef) (Behind : List FGPUFenceRHIRef)
    (hT : Thread.IsInRenderingThread = true)
    (hQ : State.ActiveFences = Front :: Behind)
    (hI : Status.IsValid Front = false) :
    State.PollActivity Thread Status =
      some { Return := false, State := State, Calls := [FenceCall.IsValid Front] } := by
  cases State
  simp only at hQ
  subst hQ
  simp [FFXFSR4State.PollActivity, PollActivityCheck, hT, pollLoop, hI]

/-- C3: when the fence at the head of a non-empty queue fails `IsValid()`,
a `PollActivity` on the rendering thread removes no fence and returns false,
whatever the fences behind it answer; and over any number of further polls
during which that fence stays invalid (the other answers may change from poll
to poll) every poll returns false and the state is left as it was. -/
theorem PollActivity_stalls_on_invalid_front (Thread : ThreadContext)
    (Statuses : List FenceStatus) (State : FFXFSR4State)
    (Front : FGPUFenceRHIRef) (Behind : List FGPUFenceRHIRef)
    (hT : Thread.IsInRenderingThread = true)
    (hQ : State.ActiveFences = Front :: Behind)
    (hI : ∀ Status ∈ Statuses, Status.IsValid Front = false) :
    (∀ Status ∈ Statuses, ∃ Result, State.PollActivity Thread Status = some Result ∧
      Result.Return = false ∧ Result.State = State) ∧
    pollSequence Thread Statuses State =
      some (List.replicate Statuses.length false, State) := by
  constructor
  · intro Status hS
    exact ⟨_, PollActivity_invalid_front Thread Status State Front Behind hT hQ (hI Status hS),
      rfl, rfl⟩
  · induction Statuses with
    | nil => rfl
    | cons S tl ih =>
      have hS := PollActivity_invalid_front Thread S State Front Behind hT hQ
        (hI S (List.mem_cons_self S tl))
      have htl := ih (fun T hTm => hI T (List.mem_cons_of_mem S hTm))
      simp [pollSequence, hS, htl, List.replicate_succ]

theorem PollActivity_stalls_on_invalid_front_witness :
    renderThread.IsInRenderingThread = true ∧
    (stateWithQueue [7, 8, 9]).ActiveFences = 7 :: [8, 9] ∧
    (∀ Status ∈ [(⟨fun f => decide (f ≠ 7), fun _ => true⟩ : FenceStatus),
        ⟨fun f => decide (f ≠ 7), fun _ => false⟩], Status.IsValid 7 = false) ∧
    ((∀ Status ∈ [(⟨fun f => decide (f ≠ 7), fun _ => true⟩ : FenceStatus),
        ⟨fun f => decide (f ≠ 7), fun _ => false⟩],
      ∃ Result, (stateWithQueue [7, 8, 9]).PollActivity renderThread Status = some Result ∧
        Result.Return = false ∧ Result.State = stateWithQueue [7, 8, 9]) ∧
    pollSequence renderThread [(⟨fun f => decide (f ≠ 7), fun _ => true⟩ : FenceStatus),
        ⟨fun f => decide (f ≠ 7), fun _ => false⟩] (stateWithQueue [7, 8, 9]) =
      some (List.replicate [(⟨fun f => decide (f ≠ 7), fun _ => true⟩ : FenceStatus),
        ⟨fun f => decide (f ≠ 7), fun _ => false⟩].length false, stateWithQueue [7, 8, 9])) :=
  ⟨rfl, rfl, by simp,
    PollActivity_stalls_on_invalid_front renderThread _ (stateWithQueue [7, 8, 9]) 7 [8, 9]
      rfl rfl (by simp)⟩

theorem pushSequence_eq (Thread : ThreadContext) (Fences : List FGPUFenceRHIRef)
    (State : FFXFSR4State) (hT : PushActivityCheck Thread = true) :
    pushSequence Thread Fences State =
      some { State with ActiveFences := State.ActiveFences ++ Fences } := by
  induction Fences generalizing State with
  | nil => simp [pushSequence]
  | cons f tl ih =>
    simp [pushSequence, FFXFSR4State.PushActivity, hT, ih, TQueue.Enqueue]

theorem all_done_append (Status : FenceStatus) (Gone Queue : List FGPUFenceRHIRef)
    (hG : ∀ f ∈ Gone, Status.Done f = true) :
    (Queue.dropWhile Status.Done).isEmpty = (Gone ++ Queue).all Status.Done := by
  rw [Bool.eq_iff_iff]
  simp only [List.isEmpty_iff, List.dropWhile_eq_nil_iff, List.all_eq_true, List.mem_append]
  constructor
  · intro h f hf
    rcases hf with hf | hf
    · exact hG f hf
    · exact h f hf
  · intro h f hf
    exact h f (Or.inr hf)

theorem pollSequence_returns (Thread : ThreadContext) (Statuses : List FenceStatus)
    (hT : Thread.IsInRenderingThread = true) :
    ∀ (State : FFXFSR4State) (Gone : List FGPUFenceRHIRef),
      (∀ S ∈ Statuses, ∀ f ∈ Gone, S.Done f = true) →
      Statuses.Pairwise (fun S T => ∀ f ∈ Gone ++ State.ActiveFences,
        S.Done f = true → T.Done f = true) →
      ∃ Final, pollSequence Thread Statuses State =
        some (Statuses.map (fun S => (Gone ++ State.ActiveFences).all S.Done), Final) := by
  induction Statuses with
  | nil => intro State Gone _ _; exact ⟨State, rfl⟩
  | cons S tl ih =>
    intro State Gone hG hM
    have hsplit : Gone ++ State.ActiveFences =
        (Gone ++ State.ActiveFences.takeWhile S.Done) ++ State.ActiveFences.dropWhile S.Done := by
      rw [List.append_assoc, List.takeWhile_append_dropWhile]
    rw [List.pairwise_cons] at hM
    obtain ⟨hS, hTl⟩ := hM
    have hG2 : ∀ T ∈ tl, ∀ f ∈ Gone ++ State.ActiveFences.takeWhile S.Done,
        T.Done f = true := by
      intro T hT2 f hf
      rcases List.mem_append.mp hf with hf | hf
      · exact hG T (List.mem_cons_of_mem S hT2) f hf
      · have hmem : f ∈ Gone ++ State.ActiveFences :=
          List.mem_append.mpr (Or.inr (List.takeWhile_subset S.Done hf))
        exact hS T hT2 f hmem (List.mem_takeWhile_imp hf)
    have hrec := ih { State with ActiveFences := State.ActiveFences.dropWhile S.Done }
      (Gone ++ State.ActiveFences.takeWhile S.Done) hG2 (by
        simp only []
        rw [← hsplit]
        exact hTl)
    obtain ⟨Final, hFinal⟩ := hrec
    simp only [] at hFinal
    rw [← hsplit] at hFinal
    refine ⟨Final, ?_⟩
    simp only [pollSequence, PollActivity_eq Thread S State hT, hFinal, List.map_cons]
    rw [all_done_append S Gone State.ActiveFences
      (fun f hf => hG S (List.mem_cons_self S tl) f hf)]

/-- C5: after the fences `Fences` have been pushed, in order, on an empty
queue, let polls be made on the rendering thread at any moments, the fences
answering `Statuses` at those moments; the fences are valid and a fence that
reported completion at one poll reports it at every later poll. Then every
poll made while fewer than all of the fences have completed returns false, and
every poll made when all have completed returns true, however many polls came
before it. (Completion in FIFO order is not needed for this.) -/
theorem PollActivity_false_until_all_complete (Producer Consumer : ThreadContext)
    (Fences : List FGPUFenceRHIRef) (Statuses : List FenceStatus) (State : FFXFSR4State)
    (hP : PushActivityCheck Producer = true)
    (hC : Consumer.IsInRenderingThread = true)
    (hE : State.ActiveFences = [])
    (hV : ∀ S ∈ Statuses, ∀ f ∈ Fences, S.IsValid f = true)
    (hM : Statuses.Pairwise (fun S T => ∀ f ∈ Fences, S.Poll f = true → T.Poll f = true)) :
    ∃ Pushed Returns Final, pushSequence Producer Fences State = some Pushed ∧
      Pushed.ActiveFences = Fences ∧
      pollSequence Consumer Statuses Pushed = some (Returns, Final) ∧
      Returns.length = Statuses.length ∧
      ∀ (k : Nat) (S : FenceStatus), Statuses[k]? = some S →
        (Fences.countP S.Poll < Fences.length → Returns[k]? = some false) ∧
        (Fences.countP S.Poll = Fences.length → Returns[k]? = some true) := by
  have hM2 : Statuses.Pairwise (fun S T => ∀ f ∈ ([] : List FGPUFenceRHIRef) ++
      ({ State with ActiveFences := State.ActiveFences ++ Fences } : FFXFSR4State).ActiveFences,
      S.Done f = true → T.Done f = true) := by
    rw [List.pairwise_iff_getElem] at hM ⊢
    intro i j hi hj hij f hf hd
    simp only [hE, List.nil_append] at hf
    simp only [FenceStatus.Done, Bool.and_eq_true] at hd ⊢
    exact ⟨hV _ (List.getElem_mem hj) f hf, hM i j hi hj hij f hf hd.2⟩
  obtain ⟨Final, hFinal⟩ := pollSequence_returns Consumer Statuses hC
    { State with ActiveFences := State.ActiveFences ++ Fences } [] (by simp) hM2
  simp only [hE, List.nil_append] at hFinal
  refine ⟨{ State with ActiveFences := State.ActiveFences ++ Fences },
    Statuses.map (fun S => Fences.all S.Done), Final,
    pushSequence_eq Producer Fences State hP, by simp [hE], ?_, by simp, ?_⟩
  · simpa [hE] using hFinal
  · intro k S hk
    have hS : S ∈ Statuses := List.getElem?_mem hk
    have hall : Fences.all S.Done = Fences.all S.Poll := by
      rw [Bool.eq_iff_iff]
      simp only [List.all_eq_true, FenceStatus.Done, Bool.and_eq_true]
      constructor
      · intro h f hf; exact (h f hf).2
      · intro h f hf; exact ⟨hV S hS f hf, h f hf⟩
    simp only [List.getElem?_map, hk, Option.map_some', hall, Option.some.injEq]
    constructor
    · intro hlt
      rw [Bool.eq_false_iff]
      intro h
      rw [List.all_eq_true] at h
      have := (List.countP_eq_length (p := S.Poll)).mpr h
      omega
    · intro heq
      rw [List.all_eq_true]
      exact (List.countP_eq_length (p := S.Poll)).mp heq

theorem PollActivity_false_until_all_complete_witness :
    PushActivityCheck rhiThread = true ∧
    renderThread.IsInRenderingThread = true ∧
    (FFXFSR4State.construct 0).ActiveFences = [] ∧
    (∀ S ∈ [completedBelow 0, completedBelow 1, completedBelow 1, completedBelow 2],
      ∀ f ∈ [0, 1], S.IsValid f = true) ∧
    [completedBelow 0, completedBelow 1, completedBelow 1, completedBelow 2].Pairwise
      (fun S T => ∀ f ∈ [0, 1], S.Poll f = true → T.Poll f = true) ∧
    ∃ Pushed Returns Final,
      pushSequence rhiThread [0, 1] (FFXFSR4State.construct 0) = some Pushed ∧
      Pushed.ActiveFences = [0, 1] ∧
      pollSequence renderThread
        [completedBelow 0, completedBelow 1, completedBelow 1, completedBelow 2] Pushed =
        some (Returns, Final) ∧
      Returns.length =
        [completedBelow 0, completedBelow 1, completedBelow 1, completedBelow 2].length ∧
      ∀ (k : Nat) (S : FenceStatus),
        [completedBelow 0, completedBelow 1, completedBelow 1, completedBelow 2][k]? = some S →
        (([0, 1] : List FGPUFenceRHIRef).countP S.Poll < ([0, 1] : List FGPUFenceRHIRef).length →
          Returns[k]? = some false) ∧
        (([0, 1] : List FGPUFenceRHIRef).countP S.Poll = ([0, 1] : List FGPUFenceRHIRef).length →
          Returns[k]? = some true) :=
  ⟨rfl, rfl, rfl, by simp [completedBelow], by simp [completedBelow],
    PollActivity_false_until_all_complete rhiThread renderThread [0, 1]
      [completedBelow 0, completedBelow 1, completedBelow 1, completedBelow 2]
      (FFXFSR4State.construct 0) rfl rfl rfl
      (by simp [completedBelow]) (by simp [completedBelow])⟩

/-! ## Reference counting of the state -/

theorem run_backend_calls (Ops : List StateOp) :
    ∀ (L Final : Lifetime), L.run Ops = some Final →
      Final.BackendCalls =
        L.BackendCalls ++ (createdContexts Ops).map BackendCall.ffxCreateContext ∧
      Final.State.Fsr4 = (createdContexts Ops).getLast?.or L.State.Fsr4 := by
  induction Ops with
  | nil =>
    intro L Final h
    simp only [Lifetime.run, Option.some.injEq] at h
    subst h
    simp [createdContexts]
  | cons Op tl ih =>
    intro L Final h
    simp only [Lifetime.run] at h
    cases hstep : L.step Op with
    | none => simp [hstep] at h
    | some Next =>
      simp only [hstep] at h
      obtain ⟨hcalls, hfsr⟩ := ih Next Final h
      cases Op with
      | AddRef =>
        simp only [Lifetime.step, Option.some.injEq] at hstep
        subst hstep
        simpa [createdContexts, FFXFSR4State.AddRef] using And.intro hcalls hfsr
      | Release =>
        simp only [Lifetime.step, FFXFSR4State.Release] at hstep
        by_cases hz : L.State.NumRefs = 0
        · simp [hz] at hstep
        · simp only [hz, if_false, Option.map_some', Option.some.injEq] at hstep
          subst hstep
          simpa [createdContexts] using And.intro hcalls hfsr
      | CreateContext c =>
        simp only [Lifetime.step, Option.some.injEq] at hstep
        subst hstep
        refine ⟨by simpa [createdContexts] using hcalls, ?_⟩
        rw [hfsr]
        simp only [createdContexts, List.getLast?_cons]
        cases (createdContexts tl).getLast? <;> simp
      | PushActivity t f =>
        simp only [Lifetime.step, FFXFSR4State.PushActivity] at hstep
        by_cases hc : PushActivityCheck t = true
        · simp only [hc, if_true, Option.map_some', Option.some.injEq] at hstep
          subst hstep
          simpa [createdContexts] using And.intro hcalls hfsr
        · simp [hc] at hstep
      | PollActivity t st =>
        simp only [Lifetime.step, FFXFSR4State.PollActivity] at hstep
        by_cases hc : PollActivityCheck t = true
        · simp only [hc, if_true, Option.map_some', Option.some.injEq] at hstep
          subst hstep
          simpa [createdContexts] using And.intro hcalls hfsr
        · simp [hc] at hstep

theorem countDestroy_creates (Created : List ffxContext) :
    countDestroy (Created.map BackendCall.ffxCreateContext) = 0 := by
  induction Created with
  | nil => rfl
  | cons c tl ih => simpa [countDestroy] using ih

theorem countDestroy_creates_destroy (Created : List ffxContext)
    (Context : Option ffxContext) :
    countDestroy (Created.map BackendCall.ffxCreateContext ++
      [BackendCall.ffxDestroyContext Context]) = 1 := by
  induction Created with
  | nil => rfl
  | cons c tl ih => simpa [countDestroy] using ih

/-- C9, counterexample: a state that is constructed, referenced once and
released, the owner never creating a context, is deleted by the RHI with the
destructor calling `ffxDestroyContext` on the unpopulated handle: it is the
only call the backend ever received, no creation came before it. -/
theorem Destructor_destroys_unpopulated_handle :
    ∃ Final, (Lifetime.construct 0).run [StateOp.AddRef, StateOp.Release] = some Final ∧
      Final.RHIDelete = (none, [BackendCall.ffxDestroyContext none]) ∧
      countCreate none Final.RHIDelete.2 = 0 :=
  ⟨_, rfl, rfl, rfl⟩

/-- C9, amended: for every sequence of operations on a freshly constructed
state that passes its checks, no `ffxDestroyContext` is called during the
sequence, and when the RHI finds the state marked and unreferenced its
deletion runs the destructor, which calls `ffxDestroyContext` exactly once,
on what the handle field holds then: the handle of the latest creation, or
the unpopulated handle when the owner never created a context. When the owner
populated the handle by exactly one creation, the handle destroyed is that
one and it was created exactly once. -/
theorem Destructor_destroys_current_handle (InBackend : Nat) (Ops : List StateOp)
    (Final : Lifetime)
    (hRun : (Lifetime.construct InBackend).run Ops = some Final)
    (hMarked : Final.State.MarkedForDelete = true)
    (hZero : Final.State.GetRefCount = 0) :
    countDestroy Final.BackendCalls = 0 ∧
    Final.RHIDelete = (none, Final.BackendCalls ++
      [BackendCall.ffxDestroyContext (createdContexts Ops).getLast?]) ∧
    countDestroy Final.RHIDelete.2 = 1 ∧
    (∀ Context, createdContexts Ops = [Context] →
      Final.RHIDelete.2 = [BackendCall.ffxCreateContext Context,
        BackendCall.ffxDestroyContext (some Context)] ∧
      countCreate (some Context) Final.BackendCalls = 1) ∧
    (createdContexts Ops = [] →
      Final.RHIDelete.2 = [BackendCall.ffxDestroyContext none]) := by
  obtain ⟨hcalls, hfsr⟩ := run_backend_calls Ops _ Final hRun
  have hz : Final.State.NumRefs = 0 := hZero
  simp only [Lifetime.construct, FFXFSR4State.construct, List.nil_append,
    Option.or_none] at hcalls hfsr
  have hdel : Final.RHIDelete = (none, Final.BackendCalls ++
      [BackendCall.ffxDestroyContext (createdContexts Ops).getLast?]) := by
    simp [Lifetime.RHIDelete, RHIDeleteResource, hMarked, hz, FFXFSR4State.destruct, hfsr]
  have hnone : countDestroy Final.BackendCalls = 0 := by
    rw [hcalls]
    exact countDestroy_creates _
  refine ⟨hnone, hdel, ?_, ?_, ?_⟩
  · rw [hdel, hcalls]
    exact countDestroy_creates_destroy _ _
  · intro Context hC
    rw [hdel, hcalls, hC]
    simp [countCreate]
  · intro hC
    rw [hdel, hcalls, hC]
    simp

theorem Destructor_destroys_current_handle_witness :
    ∃ Final, (Lifetime.construct 0).run [StateOp.AddRef, StateOp.CreateContext 5,
        StateOp.PushActivity rhiThread 1, StateOp.Release] = some Final ∧
      Final.State.MarkedForDelete = true ∧
      Final.State.GetRefCount = 0 ∧
      Final.RHIDelete = (none, Final.BackendCalls ++
        [BackendCall.ffxDestroyContext
          (createdContexts [StateOp.AddRef, StateOp.CreateContext 5,
            StateOp.PushActivity rhiThread 1, StateOp.Release]).getLast?]) :=
  ⟨_, rfl, rfl, rfl,
    (Destructor_destroys_current_handle 0
      [StateOp.AddRef, StateOp.CreateContext 5, StateOp.PushActivity rhiThread 1,
        StateOp.Release] _ rfl rfl rfl).2.1⟩

/-! ## The history object -/

/-- C8: the check of `PushActivity` at the failing input. While an RHI thread
is running, the RHI thread passes the check and so does the rendering thread,
two different threads under the same value of `IsRHIThreadRunning()`, although
the comment above the check says "only produce from the RHI thread" and the
check of `PollActivity` admits one thread only. -/
theorem PushActivityCheck_passes_for_two_threads :
    rhiThread.IsRHIThreadRunning = renderThread.IsRHIThreadRunning ∧
    rhiThread.IsInRHIThread = true ∧ rhiThread.IsInRenderingThread = false ∧
    renderThread.IsInRHIThread = false ∧ renderThread.IsInRenderingThread = true ∧
    ((stateWithQueue []).PushActivity rhiThread 1).isSome = true ∧
    ((stateWithQueue []).PushActivity renderThread 1).isSome = true := by
  decide

/-- What the two checks admit as they are written: for every combination of
the thread predicates, the check of `PushActivity` passes exactly for the RHI
thread while an RHI thread is running and for the rendering thread, and fails
for every other caller (a thread that is neither fails, and so does the RHI
thread when no RHI thread is reported running); the check of `PollActivity`
passes if and only if the caller is the rendering thread. -/
theorem Activity_checks_pass_iff (Thread : ThreadContext) (Status : FenceStatus)
    (Fence : FGPUFenceRHIRef) (State : FFXFSR4State) :
    ((State.PushActivity Thread Fence).isSome = true ↔
      (Thread.IsRHIThreadRunning = true ∧ Thread.IsInRHIThread = true) ∨
        Thread.IsInRenderingThread = true) ∧
    (Thread.IsInRHIThread = false → Thread.IsInRenderingThread = false →
      State.PushActivity Thread Fence = none) ∧
    (Thread.IsRHIThreadRunning = false → Thread.IsInRenderingThread = false →
      State.PushActivity Thread Fence = none) ∧
    ((State.PollActivity Thread Status).isSome = true ↔
      Thread.IsInRenderingThread = true) ∧
    (Thread.IsInRenderingThread = false → State.PollActivity Thread Status = none) := by
  obtain ⟨r, i, t⟩ := Thread
  cases r <;> cases i <;> cases t <;>
    simp [FFXFSR4State.PushActivity, FFXFSR4State.PollActivity, PushActivityCheck,
      PollActivityCheck]

/-! ## The identifier derived from the debug name -/

theorem GetFsrHistoryId_cached (Hash : String → Nat) (Name : String) (Id : Nat)
    (Count : Nat) :
    callGetFsrHistoryId Hash Name Count { DebugNameId := some Id } =
      (List.replicate Count Id, { DebugNameId := some Id }) := by
  induction Count with
  | zero => rfl
  | succ n ih =>
    simp [callGetFsrHistoryId, GetFsrHistoryIdFromDebugName, ih, List.replicate_succ]

theorem GetFsrHistoryId_from_empty (Hash : String → Nat) (Name : String) (Count : Nat) :
    callGetFsrHistoryId Hash Name (Count + 1) { DebugNameId := none } =
      (List.replicate (Count + 1) (Hash Name % 2 ^ 64),
        { DebugNameId := some (Hash Name % 2 ^ 64) }) := by
  have hfirst : GetFsrHistoryIdFromDebugName Hash Name { DebugNameId := none } =
      (Hash Name % 2 ^ 64, { DebugNameId := some (Hash Name % 2 ^ 64) }) := rfl
  rw [callGetFsrHistoryId, hfirst, GetFsrHistoryId_cached, List.replicate_succ]

/-- C10: `GetFsrHistoryIdFromDebugName()` is deterministic and idempotent.
Starting with the identifier not yet computed, every one of any number of
calls returns the value derived from the debug-name string alone, which is
the value of the first call; a call made after any number of earlier calls
returns that same value and leaves the static storage as it found it. The
function takes no history object, so the value cannot depend on which history
objects exist. -/
theorem GetFsrHistoryIdFromDebugName_idempotent (Hash : String → Nat) (Name : String)
    (Count : Nat) :
    (callGetFsrHistoryId Hash Name Count { DebugNameId := none }).1 =
      List.replicate Count (Hash Name % 2 ^ 64) ∧
    (GetFsrHistoryIdFromDebugName Hash Name { DebugNameId := none }).1 = Hash Name % 2 ^ 64 ∧
    (GetFsrHistoryIdFromDebugName Hash Name
        (callGetFsrHistoryId Hash Name (Count + 1) { DebugNameId := none }).2).1 =
      (GetFsrHistoryIdFromDebugName Hash Name { DebugNameId := none }).1 ∧
    (GetFsrHistoryIdFromDebugName Hash Name
        (callGetFsrHistoryId Hash Name (Count + 1) { DebugNameId := none }).2).2 =
      (callGetFsrHistoryId Hash Name (Count + 1) { DebugNameId := none }).2 := by
  have hsucc := GetFsrHistoryId_from_empty Hash Name Count
  refine ⟨?_, rfl, ?_, ?_⟩
  · cases Count with
    | zero => rfl
    | succ n => rw [GetFsrHistoryId_from_empty]
  · rw [hsucc]
    rfl
  · rw [hsucc]
    rfl

/-! ## Pushing a fence -/

/-- C12: for every queue and every fence, `PushActivity` called from a thread
that passes its check succeeds and leaves the queue with the fence appended
at the tail: the length grows by exactly one, the fences already queued are
the same in the same order, and the fence pushed is the last. The fence is
not validated: no status of the fence enters the call, and a fence that fails
`IsValid()` pushed on an empty queue is found there by the next poll, which
returns false and leaves it queued. -/
theorem PushActivity_appends_at_tail (Thread : ThreadContext)
    (Fence : FGPUFenceRHIRef) (State : FFXFSR4State)
    (hT : PushActivityCheck Thread = true) :
    ∃ Pushed, State.PushActivity Thread Fence = some Pushed ∧
      Pushed.ActiveFences = State.ActiveFences ++ [Fence] ∧
      Pushed.ActiveFences.length = State.ActiveFences.length + 1 ∧
      Pushed.ActiveFences.take State.ActiveFences.length = State.ActiveFences ∧
      Pushed.ActiveFences.getLast? = some Fence ∧
      (∀ (Status : FenceStatus), Status.IsValid Fence = false →
        State.ActiveFences = [] →
        ∃ Result, Pushed.PollActivity renderThread Status = some Result ∧
          Result.Return = false ∧ Result.State.ActiveFences = [Fence]) := by
  refine ⟨{ State with ActiveFences := State.ActiveFences ++ [Fence] }, ?_, rfl, ?_, ?_, ?_, ?_⟩
  · simp [FFXFSR4State.PushActivity, hT, TQueue.Enqueue]
  · simp
  · simp
  · simp
  · intro Status hI hE
    refine ⟨_, PollActivity_eq renderThread Status _ rfl, ?_, ?_⟩
    · simp [hE, FenceStatus.Done, hI]
    · simp [hE, FenceStatus.Done, hI]

theorem PushActivity_appends_at_tail_witness :
    PushActivityCheck rhiThread = true ∧
    ∃ Pushed, (stateWithQueue [3, 4]).PushActivity rhiThread 5 = some Pushed ∧
      Pushed.ActiveFences = (stateWithQueue [3, 4]).ActiveFences ++ [5] ∧
      Pushed.ActiveFences.length = (stateWithQueue [3, 4]).ActiveFences.length + 1 ∧
      Pushed.ActiveFences.take (stateWithQueue [3, 4]).ActiveFences.length =
        (stateWithQueue [3, 4]).ActiveFences ∧
      Pushed.ActiveFences.getLast? = some 5 ∧
      (∀ (Status : FenceStatus), Status.IsValid 5 = false →
        (stateWithQueue [3, 4]).ActiveFences = [] →
        ∃ Result, Pushed.PollActivity renderThread Status = some Result ∧
          Result.Return = false ∧ Result.State.ActiveFences = [5]) :=
  ⟨rfl, PushActivity_appends_at_tail rhiThread 5 (stateWithQueue [3, 4]) rfl⟩

/-! ## What a poll costs and what it calls -/

theorem pollLoop_calls (Status : FenceStatus) (Queue : List FGPUFenceRHIRef) :
    (pollLoop Status Queue).Calls =
      (Queue.takeWhile Status.Done).flatMap poppingCalls ++
        breakingCalls Status (Queue.dropWhile Status.Done) := by
  induction Queue with
  | nil => rfl
  | cons f rest ih =>
    by_cases hv : Status.IsValid f <;> by_cases hp : Status.Poll f <;>
      simp [pollLoop, FenceStatus.Done, List.dropWhile, List.takeWhile, hv, hp, ih,
        poppingCalls, breakingCalls]

theorem count_popping (Removed : List FGPUFenceRHIRef) (Tail : List FenceCall) :
    countIsValidCalls (Removed.flatMap poppingCalls ++ Tail) =
      Removed.length + countIsValidCalls Tail ∧
    countPollCalls (Removed.flatMap poppingCalls ++ Tail) =
      Removed.length + countPollCalls Tail ∧
    polledFences (Removed.flatMap poppingCalls ++ Tail) = Removed ++ polledFences Tail := by
  induction Removed with
  | nil => simp
  | cons f tl ih =>
    obtain ⟨h1, h2, h3⟩ := ih
    have e : (f :: tl).flatMap poppingCalls ++ Tail =
        FenceCall.IsValid f :: FenceCall.Poll f :: (tl.flatMap poppingCalls ++ Tail) := by
      rw [List.flatMap_cons]
      rfl
    rw [e]
    simp only [countIsValidCalls, countPollCalls, polledFences, List.length_cons,
      List.cons_append, h1, h2, h3]
    refine ⟨by omega, by omega, trivial⟩

theorem length_take_drop (p : FGPUFenceRHIRef → Bool) (Queue : List FGPUFenceRHIRef) :
    (Queue.takeWhile p).length + (Queue.dropWhile p).length = Queue.length := by
  rw [← List.length_append, List.takeWhile_append_dropWhile]

theorem breakingCalls_counts (Status : FenceStatus) (Queue : List FGPUFenceRHIRef) :
    countIsValidCalls (breakingCalls Status Queue) ≤ 1 ∧
    countIsValidCalls (breakingCalls Status Queue) ≤ Queue.length ∧
    countPollCalls (breakingCalls Status Queue) ≤
      countIsValidCalls (breakingCalls Status Queue) ∧
    polledFences (breakingCalls Status Queue) =
      Queue.take (polledFences (breakingCalls Status Queue)).length ∧
    (polledFences (breakingCalls Status Queue)).length ≤ 1 ∧
    (∀ f ∈ polledFences (breakingCalls Status Queue), Status.IsValid f = true) := by
  cases Queue with
  | nil => simp [breakingCalls, countIsValidCalls, countPollCalls, polledFences]
  | cons g rest =>
    by_cases hv : Status.IsValid g = true
    · simp [breakingCalls, hv, countIsValidCalls, countPollCalls, polledFences]
    · simp [breakingCalls, hv, countIsValidCalls, countPollCalls, polledFences]

/-- C14: `PollActivity` on the rendering thread returns for every queue and
every assignment of statuses. With `n` fences queued, the body of its loop
runs at most `n` times, so at most `n + 1` times; at most `n` fences are
removed; every run of the body but the last removes the fence at the head
(the runs are at most one more than the fences removed); and `Poll()` is
called at most once per run of the body, so no fence is waited for. -/
theorem PollActivity_terminates_within_bound (Thread : ThreadContext)
    (Status : FenceStatus) (State : FFXFSR4State)
    (hT : Thread.IsInRenderingThread = true) :
    ∃ Result, State.PollActivity Thread Status = some Result ∧
      countIsValidCalls Result.Calls ≤ State.ActiveFences.length + 1 ∧
      countIsValidCalls Result.Calls ≤ State.ActiveFences.length ∧
      Result.State.ActiveFences.length ≤ State.ActiveFences.length ∧
      State.ActiveFences.length - Result.State.ActiveFences.length ≤
        countIsValidCalls Result.Calls ∧
      countIsValidCalls Result.Calls ≤
        (State.ActiveFences.length - Result.State.ActiveFences.length) + 1 ∧
      countPollCalls Result.Calls ≤ countIsValidCalls Result.Calls := by
  refine ⟨_, PollActivity_eq Thread Status State hT, ?_⟩
  simp only [pollLoop_calls]
  obtain ⟨h1, h2, _⟩ := count_popping (State.ActiveFences.takeWhile Status.Done)
    (breakingCalls Status (State.ActiveFences.dropWhile Status.Done))
  obtain ⟨b1, b2, b3, _⟩ := breakingCalls_counts Status
    (State.ActiveFences.dropWhile Status.Done)
  have hlen := length_take_drop Status.Done State.ActiveFences
  rw [h1, h2]
  refine ⟨by omega, by omega, by omega, by omega, by omega, by omega⟩

theorem PollActivity_terminates_within_bound_witness :
    renderThread.IsInRenderingThread = true ∧
    ∃ Result, (stateWithQueue [0, 1, 2]).PollActivity renderThread (completedBelow 1) =
        some Result ∧
      countIsValidCalls Result.Calls ≤ (stateWithQueue [0, 1, 2]).ActiveFences.length + 1 ∧
      countIsValidCalls Result.Calls ≤ (stateWithQueue [0, 1, 2]).ActiveFences.length ∧
      Result.State.ActiveFences.length ≤ (stateWithQueue [0, 1, 2]).ActiveFences.length ∧
      (stateWithQueue [0, 1, 2]).ActiveFences.length - Result.State.ActiveFences.length ≤
        countIsValidCalls Result.Calls ∧
      countIsValidCalls Result.Calls ≤
        ((stateWithQueue [0, 1, 2]).ActiveFences.length -
          Result.State.ActiveFences.length) + 1 ∧
      countPollCalls Result.Calls ≤ countIsValidCalls Result.Calls :=
  ⟨rfl, PollActivity_terminates_within_bound renderThread (completedBelow 1)
    (stateWithQueue [0, 1, 2]) rfl⟩

theorem dropWhile_dropWhile_same (p : FGPUFenceRHIRef → Bool)
    (Queue : List FGPUFenceRHIRef) :
    (Queue.dropWhile p).dropWhile p = Queue.dropWhile p := by
  cases h : Queue.dropWhile p with
  | nil => rfl
  | cons g rest =>
    have hg := dropWhile_head_not p Queue g rest h
    rw [List.dropWhile_cons_of_neg (by simp [hg])]

/-- C16: while the statuses of the fences do not change, `PollActivity` is
idempotent: a second call on the rendering thread right after the first
removes no fence, leaves the state (and so the queue) exactly as the first
call left it, and returns the same boolean. -/
theorem PollActivity_idempotent (Thread : ThreadContext) (Status : FenceStatus)
    (State : FFXFSR4State) (hT : Thread.IsInRenderingThread = true) :
    ∃ First Second, State.PollActivity Thread Status = some First ∧
      First.State.PollActivity Thread Status = some Second ∧
      Second.State.ActiveFences = First.State.ActiveFences ∧
      Second.State = First.State ∧
      Second.Return = First.Return := by
  refine ⟨_, _, PollActivity_eq Thread Status State hT,
    PollActivity_eq Thread Status _ hT, ?_, ?_, ?_⟩
  · exact dropWhile_dropWhile_same Status.Done State.ActiveFences
  · simp only [dropWhile_dropWhile_same]
  · simp only [dropWhile_dropWhile_same]

theorem PollActivity_idempotent_witness :
    renderThread.IsInRenderingThread = true ∧
    ∃ First Second,
      (stateWithQueue [0, 1, 2]).PollActivity renderThread (completedBelow 1) = some First ∧
      First.State.PollActivity renderThread (completedBelow 1) = some Second ∧
      Second.State.ActiveFences = First.State.ActiveFences ∧
      Second.State = First.State ∧
      Second.Return = First.Return :=
  ⟨rfl, PollActivity_idempotent renderThread (completedBelow 1) (stateWithQueue [0, 1, 2]) rfl⟩

theorem pollLoop_Poll_follows_IsValid (Status : FenceStatus)
    (Queue : List FGPUFenceRHIRef) :
    ∀ (Before After : List FenceCall) (f : FGPUFenceRHIRef),
      (pollLoop Status Queue).Calls = Before ++ FenceCall.Poll f :: After →
      ∃ Earlier, Before = Earlier ++ [FenceCall.IsValid f] := by
  induction Queue with
  | nil =>
    intro Before After f h
    simp [pollLoop] at h
  | cons g rest ih =>
    intro Before After f h
    by_cases hv : Status.IsValid g = true
    · by_cases hp : Status.Poll g = true
      · simp only [pollLoop, hv, hp, if_true] at h
        match Before, h with
        | [], h => simp at h
        | [x], h =>
          simp only [List.cons_append, List.nil_append, List.cons.injEq,
            FenceCall.Poll.injEq] at h
          obtain ⟨hx, hf, _⟩ := h
          exact ⟨[], by simp [← hx, hf]⟩
        | x :: y :: More, h =>
          simp only [List.cons_append, List.cons.injEq] at h
          obtain ⟨hx, hy, hrest⟩ := h
          obtain ⟨Earlier, hE⟩ := ih More After f hrest
          exact ⟨x :: y :: Earlier, by simp [hE]⟩
      · have hp2 : Status.Poll g = false := by simpa using hp
        simp only [pollLoop, hv, hp2, if_true, Bool.false_eq_true, if_false] at h
        match Before, h with
        | [], h => simp at h
        | [x], h =>
          simp only [List.cons_append, List.nil_append, List.cons.injEq,
            FenceCall.Poll.injEq] at h
          obtain ⟨hx, hf, _⟩ := h
          exact ⟨[], by simp [← hx, hf]⟩
        | x :: y :: More, h => simp at h
    · simp only [pollLoop, hv] at h
      match Before, h with
      | [], h => simp at h
      | x :: More, h => simp at h

theorem append_eq_take_append (Front Back Polled : List FGPUFenceRHIRef)
    (h : Polled = Back.take Polled.length) :
    Front ++ Polled = (Front ++ Back).take (Front ++ Polled).length := by
  induction Front with
  | nil => simpa using h
  | cons a tl ih => simpa using ih

/-- C17: in a `PollActivity` on the rendering thread, the calls made on fences
are `IsValid()` then `Poll()` on each fence removed, in queue order, followed
by the calls of the run at which the loop breaks on the fence then at the
head: `IsValid()` alone when that fence is invalid, `IsValid()` then `Poll()`
when it is valid. So every `Poll()` comes directly after an `IsValid()` on
the same fence, every fence polled is valid, the fences polled are, position
by position, the first fences of the queue, and they reach at most one fence
past those removed: no fence behind the first invalid or incomplete one is
polled. -/
theorem PollActivity_polls_only_valid_head (Thread : ThreadContext)
    (Status : FenceStatus) (State : FFXFSR4State)
    (hT : Thread.IsInRenderingThread = true) :
    ∃ Result, State.PollActivity Thread Status = some Result ∧
      Result.Calls = (State.ActiveFences.takeWhile Status.Done).flatMap poppingCalls ++
        breakingCalls Status Result.State.ActiveFences ∧
      (∀ (Before After : List FenceCall) (f : FGPUFenceRHIRef),
        Result.Calls = Before ++ FenceCall.Poll f :: After →
        ∃ Earlier, Before = Earlier ++ [FenceCall.IsValid f]) ∧
      (∀ f ∈ polledFences Result.Calls, Status.IsValid f = true) ∧
      polledFences Result.Calls =
        State.ActiveFences.take (polledFences Result.Calls).length ∧
      (polledFences Result.Calls).length ≤
        (State.ActiveFences.length - Result.State.ActiveFences.length) + 1 := by
  obtain ⟨_, _, h3⟩ := count_popping (State.ActiveFences.takeWhile Status.Done)
    (breakingCalls Status (State.ActiveFences.dropWhile Status.Done))
  obtain ⟨_, _, _, b4, b5, b6⟩ := breakingCalls_counts Status
    (State.ActiveFences.dropWhile Status.Done)
  refine ⟨_, PollActivity_eq Thread Status State hT, pollLoop_calls Status _,
    pollLoop_Poll_follows_IsValid Status _, ?_, ?_, ?_⟩
  all_goals simp only [pollLoop_calls]
  all_goals rw [h3]
  · intro f hf
    rcases List.mem_append.mp hf with hf | hf
    · have := List.mem_takeWhile_imp hf
      simp only [FenceStatus.Done, Bool.and_eq_true] at this
      exact this.1
    · exact b6 f hf
  · have hsplit := List.takeWhile_append_dropWhile Status.Done State.ActiveFences
    have := append_eq_take_append (State.ActiveFences.takeWhile Status.Done)
      (State.ActiveFences.dropWhile Status.Done) _ b4
    rw [hsplit] at this
    exact this
  · have hlen := length_take_drop Status.Done State.ActiveFences
    rw [List.length_append]
    omega

theorem PollActivity_polls_only_valid_head_witness :
    renderThread.IsInRenderingThread = true ∧
    ∃ Result, (stateWithQueue [0, 1, 2]).PollActivity renderThread (completedBelow 1) =
        some Result ∧
      Result.Calls =
        ((stateWithQueue [0, 1, 2]).ActiveFences.takeWhile
          (completedBelow 1).Done).flatMap poppingCalls ++
          breakingCalls (completedBelow 1) Result.State.ActiveFences ∧
      (∀ (Before After : List FenceCall) (f : FGPUFenceRHIRef),
        Result.Calls = Before ++ FenceCall.Poll f :: After →
        ∃ Earlier, Before = Earlier ++ [FenceCall.IsValid f]) ∧
      (∀ f ∈ polledFences Result.Calls, (completedBelow 1).IsValid f = true) ∧
      polledFences Result.Calls =
        (stateWithQueue [0, 1, 2]).ActiveFences.take (polledFences Result.Calls).length ∧
      (polledFences Result.Calls).length ≤
        ((stateWithQueue [0, 1, 2]).ActiveFences.length -
          Result.State.ActiveFences.length) + 1 :=
  ⟨rfl, PollActivity_polls_only_valid_head renderThread (completedBelow 1)
    (stateWithQueue [0, 1, 2]) rfl⟩

/-! ## Destruction and the fence queue -/

/-- C13, counterexample: a state held by one reference has a fence pending in
its queue (`PollActivity` returns false). The `Release` that takes its count
from one to zero returns with no `ffxDestroyContext` received by the backend:
that `Release` does not invoke it. -/
theorem Release_to_zero_with_pending_fence_defers_destroy :
    ∃ Polled Released,
      (stateWithQueue [1]).PollActivity renderThread (completedBelow 0) = some Polled ∧
      Polled.Return = false ∧
      (stateWithQueue [1]).GetRefCount = 1 ∧
      (lifetimeOf (stateWithQueue [1])).step StateOp.Release = some Released ∧
      Released.State.GetRefCount = 0 ∧
      countDestroy Released.BackendCalls = 0 :=
  ⟨_, _, rfl, rfl, rfl, rfl, rfl, rfl⟩

/-- C13, amended: destruction depends on the reference count alone and is not
gated on idleness. Whatever the fence queue of a state contains (so also when
`PollActivity` would return false), the `Release` that takes the count from
one to zero leaves the queue as it is and marks the state for deletion, the
backend receiving no call inside the `Release`; the RHI's deletion then runs
the destructor, which calls `ffxDestroyContext` on the handle, exactly once. A
`Release` that leaves the count above zero calls nothing, and the RHI's
deletion calls nothing after it and leaves the state alive. -/
theorem Destruction_depends_on_count_alone (L : Lifetime) :
    (L.State.GetRefCount = 1 →
      ∃ Released, L.step StateOp.Release = some Released ∧
        Released.State.GetRefCount = 0 ∧
        Released.State.ActiveFences = L.State.ActiveFences ∧
        Released.State.MarkedForDelete = true ∧
        Released.BackendCalls = L.BackendCalls ∧
        Released.RHIDelete =
          (none, L.BackendCalls ++ [BackendCall.ffxDestroyContext L.State.Fsr4])) ∧
    (2 ≤ L.State.GetRefCount →
      ∃ Released, L.step StateOp.Release = some Released ∧
        Released.State.GetRefCount = L.State.GetRefCount - 1 ∧
        Released.State.ActiveFences = L.State.ActiveFences ∧
        Released.BackendCalls = L.BackendCalls ∧
        Released.RHIDelete.2 = L.BackendCalls ∧
        ∃ Alive, Released.RHIDelete.1 = some Alive ∧
          Alive.GetRefCount = L.State.GetRefCount - 1 ∧
          Alive.ActiveFences = L.State.ActiveFences) := by
  constructor
  · intro h1
    have h1n : L.State.NumRefs = 1 := h1
    refine ⟨{ L with State := { L.State with NumRefs := 0, MarkedForDelete := true } },
      ?_, rfl, rfl, rfl, rfl, ?_⟩
    · simp [Lifetime.step, FFXFSR4State.Release, h1n]
    · simp [Lifetime.RHIDelete, RHIDeleteResource, FFXFSR4State.destruct]
  · intro h2
    have h2n : 2 ≤ L.State.NumRefs := h2
    have hne : ¬ L.State.NumRefs = 0 := by omega
    have hne1 : ¬ L.State.NumRefs - 1 = 0 := by omega
    refine ⟨{ L with State := { L.State with NumRefs := L.State.NumRefs - 1 } },
      ?_, rfl, rfl, rfl, ?_, ?_⟩
    · simp [Lifetime.step, FFXFSR4State.Release, hne, hne1]
    · by_cases hm : L.State.MarkedForDelete = true
      · simp [Lifetime.RHIDelete, RHIDeleteResource, hm, hne1]
      · simp [Lifetime.RHIDelete, RHIDeleteResource, hm]
    · by_cases hm : L.State.MarkedForDelete = true
      · simp [Lifetime.RHIDelete, RHIDeleteResource, hm, hne1, FFXFSR4State.GetRefCount]
      · simp [Lifetime.RHIDelete, RHIDeleteResource, hm, FFXFSR4State.GetRefCount]

/-! ## The initial value of the last used frame -/

/-- C15: a freshly constructed state has `LastUsedFrame` equal to 4294967295,
that is `2 ^ 32 - 1`: the initialiser `~0u` is the 32-bit all-ones value and
is zero-extended into the 64-bit field. The value is not the 64-bit maximum
`2 ^ 64 - 1`, and it is smaller than every frame number of `2 ^ 32` or
more. -/
theorem LastUsedFrame_initially_all_ones_32 (InBackend : Nat) :
    (FFXFSR4State.construct InBackend).LastUsedFrame = 4294967295 ∧
    (FFXFSR4State.construct InBackend).LastUsedFrame = 2 ^ 32 - 1 ∧
    allOnes32 = 2 ^ 32 - 1 ∧
    (FFXFSR4State.construct InBackend).LastUsedFrame ≠ 2 ^ 64 - 1 ∧
    (FFXFSR4State.construct InBackend).LastUsedFrame < 2 ^ 64 - 1 ∧
    (∀ Frame : Nat, 2 ^ 32 ≤ Frame →
      (FFXFSR4State.construct InBackend).LastUsedFrame < Frame) := by
  have h : (FFXFSR4State.construct InBackend).LastUsedFrame = 4294967295 := by
    simp [FFXFSR4State.construct, allOnes32]
  refine ⟨h, ?_, ?_, ?_, ?_, ?_⟩
  · rw [h]; norm_num
  · simp [allOnes32]
  · rw [h]; norm_num
  · rw [h]; norm_num
  · intro Frame hF
    rw [h]
    have : (2 : Nat) ^ 32 = 4294967296 := by norm_num
    omega

/-! ## What the activity calls leave alone -/

/-- C18: `PushActivity` and `PollActivity` change nothing but the fence queue.
After a push from a thread that passes its check, and after a poll on the
rendering thread, the backend pointer, the context handle, the parameters,
`LastUsedFrame`, `ViewID`, `RequestedFSRProvider` and the reference count
(with the deletion mark) are what they were before the call, and the backend
has received no call, so no `ffxDestroyContext`. The same holds for any
thread whenever the call returns at all. -/
theorem Activity_changes_only_fence_queue (Producer Consumer : ThreadContext)
    (Status : FenceStatus) (Fence : FGPUFenceRHIRef) (L : Lifetime)
    (hP : PushActivityCheck Producer = true)
    (hC : Consumer.IsInRenderingThread = true) :
    (∃ Pushed, L.step (StateOp.PushActivity Producer Fence) = some Pushed ∧
      L.State.SameBesidesQueue Pushed.State ∧
      Pushed.State.GetRefCount = L.State.GetRefCount ∧
      Pushed.BackendCalls = L.BackendCalls ∧
      countDestroy Pushed.BackendCalls = countDestroy L.BackendCalls) ∧
    (∃ Polled, L.step (StateOp.PollActivity Consumer Status) = some Polled ∧
      L.State.SameBesidesQueue Polled.State ∧
      Polled.State.GetRefCount = L.State.GetRefCount ∧
      Polled.BackendCalls = L.BackendCalls ∧
      countDestroy Polled.BackendCalls = countDestroy L.BackendCalls) ∧
    (∀ (Thread : ThreadContext) (After : Lifetime),
      (L.step (StateOp.PushActivity Thread Fence) = some After ∨
        L.step (StateOp.PollActivity Thread Status) = some After) →
      L.State.SameBesidesQueue After.State ∧ After.BackendCalls = L.BackendCalls) := by
  refine ⟨?_, ?_, ?_⟩
  · refine ⟨{ L with State :=
        { L.State with ActiveFences := TQueue.Enqueue L.State.ActiveFences Fence } },
      ?_, ⟨rfl, rfl, rfl, rfl, rfl, rfl, rfl, rfl⟩, rfl, rfl, rfl⟩
    simp [Lifetime.step, FFXFSR4State.PushActivity, hP]
  · refine ⟨{ L with State :=
        { L.State with ActiveFences := (pollLoop Status L.State.ActiveFences).Queue } },
      ?_, ⟨rfl, rfl, rfl, rfl, rfl, rfl, rfl, rfl⟩, rfl, rfl, rfl⟩
    simp [Lifetime.step, FFXFSR4State.PollActivity, PollActivityCheck, hC]
  · intro Thread After h
    rcases h with h | h
    · simp only [Lifetime.step, FFXFSR4State.PushActivity] at h
      by_cases hc : PushActivityCheck Thread = true
      · simp only [hc, if_true, Option.map_some', Option.some.injEq] at h
        subst h
        exact ⟨⟨rfl, rfl, rfl, rfl, rfl, rfl, rfl, rfl⟩, rfl⟩
      · simp [hc] at h
    · simp only [Lifetime.step, FFXFSR4State.PollActivity] at h
      by_cases hc : PollActivityCheck Thread = true
      · simp only [hc, if_true, Option.map_some', Option.some.injEq] at h
        subst h
        exact ⟨⟨rfl, rfl, rfl, rfl, rfl, rfl, rfl, rfl⟩, rfl⟩
      · simp [hc] at h

theorem Activity_changes_only_fence_queue_witness :
    PushActivityCheck rhiThread = true ∧
    renderThread.IsInRenderingThread = true ∧
    ∃ Pushed, (lifetimeOf (stateWithRefs 2 5)).step (StateOp.PushActivity rhiThread 7) =
        some Pushed ∧
      (lifetimeOf (stateWithRefs 2 5)).State.SameBesidesQueue Pushed.State ∧
      Pushed.State.GetRefCount = (lifetimeOf (stateWithRefs 2 5)).State.GetRefCount ∧
      Pushed.BackendCalls = (lifetimeOf (stateWithRefs 2 5)).BackendCalls ∧
      countDestroy Pushed.BackendCalls =
        countDestroy (lifetimeOf (stateWithRefs 2 5)).BackendCalls :=
  ⟨rfl, rfl, (Activity_changes_only_fence_queue rhiThread renderThread (completedBelow 0) 7
    (lifetimeOf (stateWithRefs 2 5)) rfl rfl).1⟩

end FSR4
